import Mathlib

/-!
Shallow embedding of the feed-aggregation core in `src/collectors.py` of
vnihub/city-bot: the recency filter, the topic fingerprint with its lexical
fallback, the rolling dedup caches, and the `get_latest_items` pipeline.

Modelling conventions:
* timestamps are `Int` seconds since the epoch;
* the external embedding-plus-digest service is injected as a function
  `embed : String → Option String`, where `none` models any failure of the
  embedding call (network error, quota, timeout);
* the external summariser `summarise_article` is injected as a function;
* the per-feed fetch results are supplied as a list in completion order,
  each element either the parsed entry list or a fetch failure (the code
  re-raises the failure when awaiting that task, so a failure is a raised
  exception at the fan-in loop);
* `list.sort(key=..., reverse=True)` in Python is a stable sort for the
  total preorder given by the sort key; any two stable sorts of the same
  total preorder agree pointwise, so `List.insertionSort` (also stable) is
  a faithful model of the sorting step.
-/

namespace CityBot

/-- A parsed feed entry, with the fields the code reads from
`feedparser.FeedParserDict`. `published` and `updated` model
`published_parsed` and `updated_parsed` as epoch seconds. -/
structure Entry where
  id        : Option String := none
  link      : Option String := none
  title     : String := ""
  summary   : String := ""
  published : Option Int := none
  updated   : Option Int := none
  deriving Repr, DecidableEq

/-- Python truthiness of an optional string: `None` and the empty string
are falsy; a truthy value is returned unchanged. -/
def truthy : Option String → Option String
  | some s => if s = "" then none else some s
  | none   => none

/-- Line 84: `uid = e.get("id") or e.get("link")`, reduced to the truthy
value that the later tests `uid and uid in ids_seen` and `if uid:` use
(`none` exactly when the Python expression is falsy). -/
def entryUid (e : Entry) : Option String :=
  match truthy e.id with
  | some s => some s
  | none   => truthy e.link

/-- Line 29: `tm = entry.get("published_parsed") or entry.get("updated_parsed")`
(a present struct_time is always truthy). -/
def entryTime (e : Entry) : Option Int :=
  match e.published with
  | some t => some t
  | none   => e.updated

/-- Lines 28-33, `_is_recent`: false without a usable timestamp, else true
iff the elapsed time from the timestamp of the entry to now is at most
`hours` hours. Converting into the channel timezone does not change the
elapsed duration between the two instants, so the timezone does not appear. -/
def is_recent (now : Int) (e : Entry) (hours : Int := 24) : Bool :=
  match entryTime e with
  | none   => false
  | some t => decide (now - t ≤ hours * 3600)

/-- Lines 36-47, `_topic_key`: ask the embedding service for a digest of
the first 1000 characters of `f"{title}\n{summary}"`; on any failure fall
back to `title.lower()[:64]`. Python strings are sequences of code points,
sliced by position and lowercased per character, so both operations are
modelled on the character list of the string. -/
def topic_key (embed : String → Option String) (e : Entry) : String :=
  match embed (String.mk ((e.title.data ++ '\n' :: e.summary.data).take 1000)) with
  | some k => k
  | none   => String.mk ((e.title.data.map Char.toLower).take 64)

/-- The rolling caches of one city: `SEEN_IDS[city_key]` and
`TOPICS_SEEN[city_key]` (lines 24-25), lists of (timestamp, value). -/
structure CacheState where
  seenIds    : List (Int × String) := []
  seenTopics : List (Int × String) := []
  deriving Repr, DecidableEq

/-- Lines 64-65: keep exactly the records with `ts >= cutoff`, where
`cutoff = now - 86400`. -/
def prune (now : Int) (c : CacheState) : CacheState :=
  { seenIds    := c.seenIds.filter fun p => decide (now - 86400 ≤ p.1)
    seenTopics := c.seenTopics.filter fun p => decide (now - 86400 ≤ p.1) }

/-- Line 68: `ids_seen`, the identity strings of the surviving records.
Python builds a set; only membership is ever used, so a list models it. -/
def idsSeen (c : CacheState) : List String := c.seenIds.map Prod.snd

/-- Line 69: `topics_seen`. -/
def topicsSeen (c : CacheState) : List String := c.seenTopics.map Prod.snd

/-- One feed fetch outcome: entries, or a raised network/parse failure
(`fetch_feed`, lines 50-54, has no handler and propagates any exception). -/
abbrev FetchResult := Except Unit (List Entry)

/-- Lines 72-75: the fan-in loop over `asyncio.as_completed`, results given
in completion order. Each successful feed contributes its recent entries in
order; awaiting a failed fetch re-raises inside the loop, so any failure
makes the whole merge fail (the partially extended list is discarded by the
exception). -/
def mergeFetched (now : Int) : List FetchResult → Except Unit (List Entry)
  | [] => .ok []
  | .error err :: _ => .error err
  | .ok es :: rest =>
    match mergeFetched now rest with
    | .error err => .error err
    | .ok acc    => .ok (es.filter (fun e => is_recent now e) ++ acc)

/-- Lines 77-80: the sort key `e.get("published_parsed") or time.gmtime(0)`
as epoch seconds. -/
def sortKey (e : Entry) : Int :=
  match e.published with
  | some t => t
  | none   => 0

/-- The descending order used by `sort(..., reverse=True)`: `a` may stand
before `b` iff the key of `a` is at least the key of `b`. -/
def newestFirst (a b : Entry) : Prop := sortKey b ≤ sortKey a

instance : DecidableRel newestFirst :=
  fun a b => inferInstanceAs (Decidable (sortKey b ≤ sortKey a))

instance : IsTotal Entry newestFirst :=
  ⟨fun a b => le_total (sortKey b) (sortKey a)⟩

instance : IsTrans Entry newestFirst :=
  ⟨fun _ _ _ h1 h2 => le_trans h2 h1⟩

/-- Line 86: the skip test
`(uid and uid in ids_seen) or topic in topics_seen`, with `ids` and
`topics` the sets loaded on lines 68-69. -/
def isDup (embed : String → Option String) (ids topics : List String)
    (e : Entry) : Bool :=
  (match entryUid e with
   | some u => ids.contains u
   | none   => false)
  || topics.contains (topic_key embed e)

/-- Lines 82-93: the sequential accept loop. `ids` and `topics` are the
snapshot sets of lines 68-69 and are never updated inside the loop; the
appends of accepted records go to the persistent cache `c`; `fresh` is the
accumulator of accepted entries. The loop breaks as soon as `fresh` has
reached `limit` entries, checked right after an accept. -/
def dedupLoop (embed : String → Option String) (now : Int) (limit : Nat)
    (ids topics : List String) :
    List Entry → CacheState → List Entry → CacheState × List Entry
  | [], c, fresh => (c, fresh)
  | e :: rest, c, fresh =>
    if isDup embed ids topics e then
      dedupLoop embed now limit ids topics rest c fresh
    else
      let fresh' := fresh ++ [e]
      let c' : CacheState :=
        { seenIds := c.seenIds ++
            (match entryUid e with
             | some u => [(now, u)]
             | none   => [])
          seenTopics := c.seenTopics ++ [(now, topic_key embed e)] }
      if limit ≤ fresh'.length then (c', fresh')
      else dedupLoop embed now limit ids topics rest c' fresh'

/-- Lines 58-96, `get_latest_items` for one city key. The first component
of the result is the rolling cache after the call (the mutation of the
module-level dicts survives even when a fetch failure aborts the call
right after the prune); the second is the outcome: the summary strings,
or the propagated fetch failure. -/
def get_latest_items (embed : String → Option String)
    (summarise : Entry → String → String) (now : Int)
    (fetched : List FetchResult) (lang : String) (c : CacheState)
    (limit : Nat := 7) : CacheState × Except Unit (List String) :=
  let c0 := prune now c
  let ids := idsSeen c0
  let topics := topicsSeen c0
  match mergeFetched now fetched with
  | .error err => (c0, .error err)
  | .ok pool =>
    let sortedPool := List.insertionSort newestFirst pool
    let res := dedupLoop embed now limit ids topics sortedPool c0 []
    (res.1, .ok (res.2.map fun e => summarise e lang))

/-! ### Concrete fixtures

Small concrete entries used to exercise the pipeline at specific inputs. -/

/-- Two entries with the same stable id but different titles and publish
times, as arise from overlapping feeds in one candidate pool. -/
def dupA : Entry := { id := some "dup", title := "A", published := some 200 }

/-- See `dupA`. -/
def dupB : Entry := { id := some "dup", title := "B", published := some 100 }

/-- Entry of the first succeeding feed in the partial-failure scenario. -/
def okE1 : Entry := { id := some "1", title := "E1", published := some 250 }

/-- Entry of the second succeeding feed in the partial-failure scenario. -/
def okE3 : Entry := { id := some "3", title := "E3", published := some 150 }

/-- Two entries from different feeds with equal publish timestamps. -/
def tieA : Entry := { id := some "a", title := "TA", published := some 100 }

/-- See `tieA`. -/
def tieB : Entry := { id := some "b", title := "TB", published := some 100 }

/-! ### Theorems -/

/-- Helper: the accept loop never grows the accumulator beyond `limit`
once it starts strictly below `limit`. -/
theorem dedupLoop_length_le (embed : String → Option String) (now : Int) (limit : Nat)
    (ids topics : List String) (l : List Entry) :
    ∀ (c : CacheState) (fresh : List Entry), fresh.length < limit →
      (dedupLoop embed now limit ids topics l c fresh).2.length ≤ limit := by
  induction l with
  | nil =>
    intro c fresh h
    simpa [dedupLoop] using Nat.le_of_lt h
  | cons e rest ih =>
    intro c fresh h
    rw [dedupLoop]
    split
    · exact ih c fresh h
    · simp only
      split
      · simpa using h
      · exact ih _ (fresh ++ [e]) (by simp_all)

/-- Helper: when no entry of the list trips the duplicate test, the loop
accepts entries in order until the limit fills, returning the prefix of
the list of length `limit - fresh.length`. -/
theorem dedupLoop_all_fresh (embed : String → Option String) (now : Int) (limit : Nat)
    (ids topics : List String) (l : List Entry) :
    ∀ (c : CacheState) (fresh : List Entry),
      (∀ e ∈ l, isDup embed ids topics e = false) → fresh.length < limit →
      (dedupLoop embed now limit ids topics l c fresh).2
        = fresh ++ l.take (limit - fresh.length) := by
  induction l with
  | nil => intro c fresh _ _; simp [dedupLoop]
  | cons e rest ih =>
    intro c fresh hacc h
    have he : isDup embed ids topics e = false := hacc e (List.mem_cons_self e rest)
    rw [dedupLoop]
    rw [if_neg (by simp [he])]
    simp only
    by_cases hl : limit ≤ (fresh ++ [e]).length
    · rw [if_pos hl]
      have h1 : limit - fresh.length = 1 := by simp at hl; omega
      simp [h1]
    · rw [if_neg hl]
      rw [ih _ (fresh ++ [e]) (fun x hx => hacc x (List.mem_cons_of_mem _ hx))
            (by simp at hl ⊢; omega)]
      have h2 : limit - fresh.length = (limit - (fresh ++ [e]).length) + 1 := by
        simp at hl ⊢; omega
      simp [h2, List.append_assoc]

/-- Helper: the loop appends to the rolling caches exactly one identity
record per accepted entry that has an identity, and exactly one topic
record per accepted entry; skipped entries leave the caches untouched. -/
theorem dedupLoop_cache_records (embed : String → Option String) (now : Int) (limit : Nat)
    (ids topics : List String) (l : List Entry) :
    ∀ (c : CacheState) (fresh : List Entry), ∃ acc : List Entry,
      (dedupLoop embed now limit ids topics l c fresh).2 = fresh ++ acc
      ∧ (dedupLoop embed now limit ids topics l c fresh).1.seenIds
          = c.seenIds ++ (acc.filterMap entryUid).map (fun u => (now, u))
      ∧ (dedupLoop embed now limit ids topics l c fresh).1.seenTopics
          = c.seenTopics ++ acc.map (fun e => (now, topic_key embed e)) := by
  induction l with
  | nil => intro c fresh; exact ⟨[], by simp [dedupLoop]⟩
  | cons e rest ih =>
    intro c fresh
    rw [dedupLoop]
    split
    · exact ih c fresh
    · simp only
      split
      · refine ⟨[e], by simp, ?_, by simp⟩
        cases hu : entryUid e <;> simp [hu]
      · obtain ⟨acc, h1, h2, h3⟩ := ih
          { seenIds := c.seenIds ++
              (match entryUid e with
               | some u => [(now, u)]
               | none   => [])
            seenTopics := c.seenTopics ++ [(now, topic_key embed e)] } (fresh ++ [e])
        refine ⟨e :: acc, by simpa [List.append_assoc] using h1, ?_, ?_⟩
        · rw [h2]; cases hu : entryUid e <;> simp [hu]
        · rw [h3]; simp

/-- Helper: once the accumulator has filled to `limit`, entries placed
after the break point change nothing: the loop on `l₁ ++ l₂` equals the
loop on `l₁` alone. -/
theorem dedupLoop_break (embed : String → Option String) (now : Int) (limit : Nat)
    (ids topics : List String) (l₂ : List Entry) (l₁ : List Entry) :
    ∀ (c : CacheState) (fresh : List Entry), fresh.length < limit →
      (dedupLoop embed now limit ids topics l₁ c fresh).2.length = limit →
      dedupLoop embed now limit ids topics (l₁ ++ l₂) c fresh
        = dedupLoop embed now limit ids topics l₁ c fresh := by
  induction l₁ with
  | nil =>
    intro c fresh hlt hfull
    rw [dedupLoop] at hfull
    exact absurd hfull (by simpa using Nat.ne_of_lt hlt)
  | cons e rest ih =>
    intro c fresh hlt hfull
    simp only [List.cons_append, dedupLoop] at hfull ⊢
    by_cases hd : isDup embed ids topics e
    · simp only [if_pos hd] at hfull ⊢
      exact ih c fresh hlt hfull
    · simp only [if_neg hd] at hfull ⊢
      by_cases hl : limit ≤ (fresh ++ [e]).length
      · simp only [if_pos hl]
      · simp only [if_neg hl] at hfull ⊢
        exact ih _ (fresh ++ [e]) (by simp at hl ⊢; omega) hfull

/-- C8: identity and topic records enter the rolling caches only for
accepted entries: a skipped entry, duplicate by identity or by topic,
leaves both caches untouched (in particular a duplicate-by-identity entry
adds no topic record), and over a whole run the caches gain exactly the
identities (when present) and the topic fingerprints of the accepted
output entries. -/
theorem records_only_for_accepted (embed : String → Option String) (now : Int)
    (limit : Nat) (ids topics : List String) (e : Entry) (l lAll : List Entry)
    (c cAll : CacheState) (fresh : List Entry)
    (hdup : isDup embed ids topics e = true) :
    dedupLoop embed now limit ids topics (e :: l) c fresh
      = dedupLoop embed now limit ids topics l c fresh
    ∧ (dedupLoop embed now limit ids topics lAll cAll []).1.seenIds
        = cAll.seenIds
          ++ (((dedupLoop embed now limit ids topics lAll cAll []).2).filterMap entryUid).map
              (fun u => (now, u))
    ∧ (dedupLoop embed now limit ids topics lAll cAll []).1.seenTopics
        = cAll.seenTopics
          ++ ((dedupLoop embed now limit ids topics lAll cAll []).2).map
              (fun x => (now, topic_key embed x)) := by
  obtain ⟨acc, h1, h2, h3⟩ := dedupLoop_cache_records embed now limit ids topics lAll cAll []
  refine ⟨by rw [dedupLoop, if_pos hdup], ?_, ?_⟩
  · rw [h2, h1]; simp
  · rw [h3, h1]; simp

/-- Concrete instance of `records_only_for_accepted`: an entry whose id is
already cached is skipped and the loop state is as if it were absent. -/
theorem records_only_for_accepted_witness :
    dedupLoop (fun _ => none) 300 7 ["dup"] [] [dupA] {} []
      = dedupLoop (fun _ => none) 300 7 ["dup"] [] [] {} [] :=
  (records_only_for_accepted (fun _ => none) 300 7 ["dup"] [] dupA [] [] {} {} [] rfl).1

/-- C9: an entry with neither a stable id nor a permalink (each absent or
empty, hence falsy in Python) gets no identity-based duplicate check —
its skip decision is exactly the topic membership test — and when
accepted it records no identity: the identity cache is untouched and no
synthetic identity is ever created. -/
theorem no_identity_no_check_no_record (embed : String → Option String) (now : Int)
    (limit : Nat) (ids topics : List String) (e : Entry) (l : List Entry)
    (c : CacheState) (fresh : List Entry)
    (hid : e.id = none ∨ e.id = some "") (hlink : e.link = none ∨ e.link = some "") :
    entryUid e = none
    ∧ isDup embed ids topics e = topics.contains (topic_key embed e)
    ∧ (topics.contains (topic_key embed e) = false →
        dedupLoop embed now limit ids topics (e :: l) c fresh
          = (if limit ≤ (fresh ++ [e]).length then
               ({ seenIds := c.seenIds
                  seenTopics := c.seenTopics ++ [(now, topic_key embed e)] }, fresh ++ [e])
             else
               dedupLoop embed now limit ids topics l
                 { seenIds := c.seenIds
                   seenTopics := c.seenTopics ++ [(now, topic_key embed e)] }
                 (fresh ++ [e]))) := by
  have huid : entryUid e = none := by
    rcases hid with h | h <;> rcases hlink with h' | h' <;> simp [entryUid, truthy, h, h']
  refine ⟨huid, by simp [isDup, huid], ?_⟩
  intro htop
  rw [dedupLoop, if_neg (by simp [isDup, huid]; simpa using htop)]
  simp [huid]

/-- Concrete instance of `no_identity_no_check_no_record`: an entry with
no id and no link has no identity and its skip test is the topic test. -/
theorem no_identity_no_check_no_record_witness :
    entryUid { title := "N" : Entry } = none
    ∧ isDup (fun _ => none) ["x"] [] { title := "N" }
        = ([] : List String).contains (topic_key (fun _ => none) { title := "N" }) :=
  ⟨(no_identity_no_check_no_record (fun _ => none) 0 7 ["x"] [] { title := "N" } [] {} []
      (Or.inl rfl) (Or.inl rfl)).1,
   (no_identity_no_check_no_record (fun _ => none) 0 7 ["x"] [] { title := "N" } [] {} []
      (Or.inl rfl) (Or.inl rfl)).2.1⟩

/-- C10: once the output of the accept loop has reached `limit`, the
remaining candidate entries are never examined and leave no identity or
topic record: running on `l₁ ++ l₂` yields exactly the caches and output
of running on `l₁` alone, so truncation by limit cannot suppress the cut
entries in later calls. -/
theorem truncation_adds_no_records (embed : String → Option String) (now : Int)
    (limit : Nat) (ids topics : List String) (l₁ l₂ : List Entry) (c : CacheState)
    (hlim : 1 ≤ limit)
    (hfull : (dedupLoop embed now limit ids topics l₁ c []).2.length = limit) :
    dedupLoop embed now limit ids topics (l₁ ++ l₂) c []
      = dedupLoop embed now limit ids topics l₁ c [] :=
  dedupLoop_break embed now limit ids topics l₂ l₁ c [] (by simpa using hlim) hfull

/-- Concrete instance of `truncation_adds_no_records`: with limit 1, a
second candidate after the break point changes neither cache nor output. -/
theorem truncation_adds_no_records_witness :
    dedupLoop (fun _ => none) 300 1 [] [] ([tieA] ++ [tieB]) {} []
      = dedupLoop (fun _ => none) 300 1 [] [] [tieA] {} [] :=
  truncation_adds_no_records (fun _ => none) 300 1 [] [] [tieA] [tieB] {}
    (by decide) (by decide)

/-- C4: `_is_recent` returns false when the entry has no usable timestamp,
and otherwise returns true iff the elapsed time between the timestamp of
the entry and now is at most the 24-hour horizon, the boundary at exactly
now minus 24h included: a timestamp of now minus 25h yields false, now
minus 1h yields true, now minus exactly 24h yields true. -/
theorem is_recent_window (now : Int) (e : Entry) :
    (entryTime e = none → is_recent now e = false)
    ∧ (∀ t : Int, entryTime e = some t → (is_recent now e = true ↔ now - t ≤ 86400))
    ∧ (∀ e' : Entry, entryTime e' = some (now - 90000) → is_recent now e' = false)
    ∧ (∀ e' : Entry, entryTime e' = some (now - 3600) → is_recent now e' = true)
    ∧ (∀ e' : Entry, entryTime e' = some (now - 86400) → is_recent now e' = true) := by
  refine ⟨fun h => by simp [is_recent, h], fun t ht => by simp [is_recent, ht],
    fun e' h => by simp [is_recent, h],
    fun e' h => by simp [is_recent, h],
    fun e' h => by simp [is_recent, h]⟩

/-- Concrete instances of `is_recent_window` at now = 1000000: 25h old is
stale, 1h old is recent, exactly 24h old is recent. -/
theorem is_recent_window_witness :
    is_recent 1000000 { published := some 910000 } = false
    ∧ is_recent 1000000 { published := some 996400 } = true
    ∧ is_recent 1000000 { published := some 913600 } = true :=
  ⟨(is_recent_window 1000000 {}).2.2.1 { published := some 910000 } (by decide),
   (is_recent_window 1000000 {}).2.2.2.1 { published := some 996400 } (by decide),
   (is_recent_window 1000000 {}).2.2.2.2 { published := some 913600 } (by decide)⟩

/-- C6: when the embedding call fails, `_topic_key` does not raise and
returns the lowercased 64-character prefix of the title alone; under a
failing embedding service two entries collide exactly when their
lowercased, 64-bounded title prefixes agree. -/
theorem topic_key_fallback (embed : String → Option String) (e₁ e₂ : Entry)
    (h₁ : embed (String.mk ((e₁.title.data ++ '\n' :: e₁.summary.data).take 1000)) = none)
    (h₂ : embed (String.mk ((e₂.title.data ++ '\n' :: e₂.summary.data).take 1000)) = none) :
    topic_key embed e₁ = String.mk ((e₁.title.data.map Char.toLower).take 64)
    ∧ (topic_key embed e₁ = topic_key embed e₂ ↔
        String.mk ((e₁.title.data.map Char.toLower).take 64)
          = String.mk ((e₂.title.data.map Char.toLower).take 64)) := by
  unfold topic_key
  rw [h₁, h₂]
  exact ⟨rfl, Iff.rfl⟩

/-- Concrete instance of `topic_key_fallback`: with the embedding service
failing, the titles "Foo" and "FOO" agree case-insensitively and collide. -/
theorem topic_key_fallback_witness :
    topic_key (fun _ => none) { title := "Foo" } = topic_key (fun _ => none) { title := "FOO" } :=
  ((topic_key_fallback (fun _ => none) { title := "Foo" } { title := "FOO" } rfl rfl).2).mpr
    (by decide)

/-- C3 as stated is false at the window boundary: a record inserted at
time T = 0 is still visible to the membership sets of a call at
now = 86400, which is exactly T + 24h, because the prune keeps records
with `ts >= cutoff`. -/
theorem prune_boundary_counterexample :
    "u" ∈ idsSeen (prune 86400 { seenIds := [(0, "u")], seenTopics := [] }) := by decide

/-- C3 amended: an identity or topic record inserted at time T is seen by
the membership sets of a call at time now when now ≤ T + 24h (the boundary
now = T + 24h included), and is pruned before any lookup once every record
carrying that value is strictly older, T + 24h < now. -/
theorem prune_window_amended (now T : Int) (v : String) (c : CacheState) :
    (((T, v) ∈ c.seenIds ∧ now ≤ T + 86400) → v ∈ idsSeen (prune now c))
    ∧ ((∀ T' : Int, (T', v) ∈ c.seenIds → T' + 86400 < now) → v ∉ idsSeen (prune now c))
    ∧ (((T, v) ∈ c.seenTopics ∧ now ≤ T + 86400) → v ∈ topicsSeen (prune now c))
    ∧ ((∀ T' : Int, (T', v) ∈ c.seenTopics → T' + 86400 < now) → v ∉ topicsSeen (prune now c)) := by
  constructor
  · rintro ⟨hm, hle⟩
    exact List.mem_map.mpr ⟨(T, v), List.mem_filter.mpr ⟨hm, by simp; omega⟩, rfl⟩
  constructor
  · intro h hmem
    obtain ⟨p, hp, hsnd⟩ := List.mem_map.mp hmem
    obtain ⟨pmem, ppred⟩ := List.mem_filter.mp hp
    have := h p.1 (by rw [← hsnd]; exact pmem)
    simp at ppred
    omega
  constructor
  · rintro ⟨hm, hle⟩
    exact List.mem_map.mpr ⟨(T, v), List.mem_filter.mpr ⟨hm, by simp; omega⟩, rfl⟩
  · intro h hmem
    obtain ⟨p, hp, hsnd⟩ := List.mem_map.mp hmem
    obtain ⟨pmem, ppred⟩ := List.mem_filter.mp hp
    have := h p.1 (by rw [← hsnd]; exact pmem)
    simp at ppred
    omega

/-- Concrete instances of `prune_window_amended`: a record from time 50 is
still seen at now = 100, and no longer seen at now = 100000. -/
theorem prune_window_amended_witness :
    "u" ∈ idsSeen (prune 100 { seenIds := [(50, "u")], seenTopics := [] })
    ∧ "v" ∉ idsSeen (prune 100000 { seenIds := [(50, "v")], seenTopics := [] }) :=
  ⟨(prune_window_amended 100 50 "u" { seenIds := [(50, "u")], seenTopics := [] }).1
      ⟨by decide, by decide⟩,
   (prune_window_amended 100000 50 "v" { seenIds := [(50, "v")], seenTopics := [] }).2.1
      (by intro T' h; simp at h; omega)⟩

/-- C1 is violated by the code: the duplicate tests consult only the
snapshot sets loaded before the loop (lines 68-69), never the records
appended during the loop, so two entries with the same identity inside
one merged pool are both emitted. `dupA` and `dupB` share the identity
"dup", yet a single call on an empty cache outputs both. -/
theorem duplicate_identity_both_emitted :
    (get_latest_items (fun _ => none) (fun e _ => e.title) 300 [.ok [dupA, dupB]] "en" {} 7).2
      = .ok ["A", "B"]
    ∧ entryUid dupA = some "dup" ∧ entryUid dupB = some "dup" ∧ dupA ≠ dupB :=
  ⟨rfl, rfl, rfl, by decide⟩

/-- C2 as stated is false: with three feeds of which one fails, the call
yields the propagated fetch error instead of the two-feed result. -/
theorem partial_failure_counterexample :
    (get_latest_items (fun _ => none) (fun e _ => e.title) 300
        [.ok [okE1], .error (), .ok [okE3]] "en" {} 7).2 = .error ()
    ∧ (get_latest_items (fun _ => none) (fun e _ => e.title) 300
        [.ok [okE1], .ok [okE3]] "en" {} 7).2 = .ok ["E1", "E3"]
    ∧ (Except.error () : Except Unit (List String)) ≠ .ok ["E1", "E3"] :=
  ⟨rfl, rfl, fun h => Except.noConfusion h⟩

/-- C2 amended: a per-feed fetch failure is not recovered: whenever any
configured feed fails, `get_latest_items` propagates the error to its
caller — the succeeding feeds contribute nothing to a returned result —
and the only side effect that survives is the prune of the cache. -/
theorem fetch_error_aborts_call (embed : String → Option String)
    (summarise : Entry → String → String) (now : Int) (fetched : List FetchResult)
    (lang : String) (c : CacheState) (limit : Nat)
    (h : Except.error () ∈ fetched) :
    (get_latest_items embed summarise now fetched lang c limit).2 = .error ()
    ∧ (get_latest_items embed summarise now fetched lang c limit).1 = prune now c := by
  have hm : mergeFetched now fetched = .error () := by
    induction fetched with
    | nil => cases h
    | cons r rest ih =>
      rcases List.mem_cons.mp h with h1 | h2
      · rw [← h1, mergeFetched]
      · cases r with
        | error err => cases err; rw [mergeFetched]
        | ok es => simp [mergeFetched, ih h2]
  constructor <;> simp [get_latest_items, hm]

/-- Concrete instance of `fetch_error_aborts_call`: one failing feed next
to one succeeding feed makes the whole call fail. -/
theorem fetch_error_aborts_call_witness :
    (get_latest_items (fun _ => none) (fun e _ => e.title) 300 [.ok [okE1], .error ()]
        "en" {} 7).2 = .error () :=
  (fetch_error_aborts_call (fun _ => none) (fun e _ => e.title) 300 [.ok [okE1], .error ()]
      "en" {} 7 (List.mem_cons_of_mem _ (List.mem_cons_self _ _))).1

/-- C5 as stated is false for limit = 0: the break test runs only after an
accept, so a call with limit 0 still emits one entry, exceeding the limit. -/
theorem limit_zero_counterexample :
    (get_latest_items (fun _ => none) (fun e _ => e.title) 300
        [.ok [{ title := "A", id := some "x", published := some 200 }]] "en" {} 0).2
      = .ok ["A"]
    ∧ ¬ (["A"].length ≤ 0) :=
  ⟨rfl, by decide⟩

/-- C5 amended: for every call with limit ≥ 1 the output has at most
`limit` entries; and when the merged pool holds at least `limit` entries
none of which trips the duplicate test against the pruned caches, the
output is exactly the first `limit` entries of the pool sorted newest
first — the `limit` most recent, entries without a publish timestamp
sorting as oldest — summarised in order. -/
theorem bounded_output_amended (embed : String → Option String)
    (summarise : Entry → String → String) (now : Int) (fetched : List FetchResult)
    (lang : String) (c : CacheState) (limit : Nat) (pool : List Entry)
    (hlim : 1 ≤ limit) (hok : mergeFetched now fetched = .ok pool) :
    (∀ out, (get_latest_items embed summarise now fetched lang c limit).2 = .ok out →
        out.length ≤ limit)
    ∧ ((∀ e ∈ pool,
          isDup embed (idsSeen (prune now c)) (topicsSeen (prune now c)) e = false) →
        limit ≤ pool.length →
        (get_latest_items embed summarise now fetched lang c limit).2
          = .ok (((List.insertionSort newestFirst pool).take limit).map
              (fun e => summarise e lang))
        ∧ ((List.insertionSort newestFirst pool).take limit).length = limit
        ∧ (List.insertionSort newestFirst pool).Perm pool
        ∧ List.Sorted newestFirst (List.insertionSort newestFirst pool)) := by
  constructor
  · intro out hout
    simp only [get_latest_items, hok] at hout
    have h2 : ((dedupLoop embed now limit (idsSeen (prune now c)) (topicsSeen (prune now c))
        (List.insertionSort newestFirst pool) (prune now c) []).2.map
          (fun e => summarise e lang)) = out := by
      simpa using hout
    rw [← h2, List.length_map]
    exact dedupLoop_length_le embed now limit _ _ _ _ [] (by simpa using hlim)
  · intro hfresh hlen
    have hperm := List.perm_insertionSort newestFirst pool
    have hsorted := List.sorted_insertionSort newestFirst pool
    have hacc : ∀ e ∈ List.insertionSort newestFirst pool,
        isDup embed (idsSeen (prune now c)) (topicsSeen (prune now c)) e = false :=
      fun e he => hfresh e (hperm.mem_iff.mp he)
    have hrun := dedupLoop_all_fresh embed now limit (idsSeen (prune now c))
        (topicsSeen (prune now c)) (List.insertionSort newestFirst pool) (prune now c) []
        hacc (by simpa using hlim)
    refine ⟨?_, ?_, hperm, hsorted⟩
    · simp only [get_latest_items, hok, hrun]
      simp
    · rw [List.length_take, hperm.length_eq]
      omega

/-- Concrete instance of `bounded_output_amended`: two fresh candidates
with limit 1 give exactly the single most recent entry. -/
theorem bounded_output_amended_witness :
    (get_latest_items (fun _ => none) (fun e _ => e.title) 300 [.ok [okE1, okE3]]
        "en" {} 1).2
      = .ok (((List.insertionSort newestFirst [okE1, okE3]).take 1).map (fun e => e.title))
    ∧ ((List.insertionSort newestFirst [okE1, okE3]).take 1).length = 1 :=
  ⟨((bounded_output_amended (fun _ => none) (fun e _ => e.title) 300 [.ok [okE1, okE3]]
      "en" {} 1 [okE1, okE3] (by decide) rfl).2 (by decide) (by decide)).1,
   ((bounded_output_amended (fun _ => none) (fun e _ => e.title) 300 [.ok [okE1, okE3]]
      "en" {} 1 [okE1, okE3] (by decide) rfl).2 (by decide) (by decide)).2.1⟩

/-- C7 as stated is false: the sort is stable, so two entries with equal
publish keys keep their completion order, and two runs that fetch the
same per-feed entries in swapped completion order, from the same empty
cache, produce different output sequences. -/
theorem completion_order_counterexample :
    (get_latest_items (fun _ => none) (fun e _ => e.title) 200 [.ok [tieA], .ok [tieB]]
        "en" {} 7).2 = .ok ["TA", "TB"]
    ∧ (get_latest_items (fun _ => none) (fun e _ => e.title) 200 [.ok [tieB], .ok [tieA]]
        "en" {} 7).2 = .ok ["TB", "TA"]
    ∧ (["TA", "TB"] : List String) ≠ ["TB", "TA"] :=
  ⟨rfl, rfl, by decide⟩

/-- Helper: merging the same per-feed results in a permuted completion
order yields a permuted pool (when the first order succeeds, so does the
second). -/
theorem mergeFetched_perm (now : Int) {f₁ f₂ : List FetchResult} (hperm : f₁.Perm f₂)
    {p₁ : List Entry} (hok : mergeFetched now f₁ = .ok p₁) :
    ∃ p₂, mergeFetched now f₂ = .ok p₂ ∧ p₁.Perm p₂ := by
  induction hperm generalizing p₁ with
  | nil => exact ⟨p₁, hok, List.Perm.refl p₁⟩
  | @cons x l₁ l₂ h ih =>
    cases x with
    | error err => simp [mergeFetched] at hok
    | ok es =>
      cases hrest : mergeFetched now l₁ with
      | error err => simp [mergeFetched, hrest] at hok
      | ok acc =>
        simp only [mergeFetched, hrest, Except.ok.injEq] at hok
        obtain ⟨acc₂, h2, hp⟩ := ih hrest
        refine ⟨es.filter (fun e => is_recent now e) ++ acc₂, ?_, ?_⟩
        · simp only [mergeFetched, h2]
        · rw [← hok]
          exact List.Perm.append_left _ hp
  | @swap x y l =>
    cases y with
    | error err => simp [mergeFetched] at hok
    | ok eys =>
      cases x with
      | error err => simp [mergeFetched] at hok
      | ok exs =>
        cases hrest : mergeFetched now l with
        | error err => simp [mergeFetched, hrest] at hok
        | ok acc =>
          simp only [mergeFetched, hrest, Except.ok.injEq] at hok ⊢
          refine ⟨exs.filter (fun e => is_recent now e)
            ++ (eys.filter (fun e => is_recent now e) ++ acc), rfl, ?_⟩
          rw [← hok, ← List.append_assoc, ← List.append_assoc]
          exact List.Perm.append_right acc List.perm_append_comm
  | trans h1 h2 ih1 ih2 =>
    obtain ⟨q, hq, hpq⟩ := ih1 hok
    obtain ⟨p₂, hp₂, hqp⟩ := ih2 hq
    exact ⟨p₂, hp₂, hpq.trans hqp⟩

/-- Helper: two lists sorted newest-first that are permutations of each
other and whose sort keys are pairwise distinct are equal. -/
theorem sorted_eq_of_perm_of_nodup_keys {l₁ l₂ : List Entry}
    (hp : l₁.Perm l₂) (hs₁ : List.Sorted newestFirst l₁)
    (hs₂ : List.Sorted newestFirst l₂) (hk : (l₁.map sortKey).Nodup) : l₁ = l₂ := by
  have hk₁ : l₁.Pairwise fun a b => sortKey a ≠ sortKey b := List.pairwise_map.mp hk
  have hk₂ : l₂.Pairwise fun a b => sortKey a ≠ sortKey b :=
    (hp.pairwise_iff fun hxy => Ne.symm hxy).mp hk₁
  have hs₁' : l₁.Pairwise fun a b => sortKey b < sortKey a :=
    List.Pairwise.imp₂ (fun a b hle hne => lt_of_le_of_ne hle (Ne.symm hne)) hs₁ hk₁
  have hs₂' : l₂.Pairwise fun a b => sortKey b < sortKey a :=
    List.Pairwise.imp₂ (fun a b hle hne => lt_of_le_of_ne hle (Ne.symm hne)) hs₂ hk₂
  haveI : IsAntisymm Entry fun a b => sortKey b < sortKey a :=
    ⟨fun a b h₁ h₂ => absurd (h₁.trans h₂) (lt_irrefl _)⟩
  exact List.eq_of_perm_of_sorted hp hs₁' hs₂'

/-- C7 amended: the output is independent of fetch completion order
provided the pooled entries carry pairwise distinct publish sort keys:
for two runs over permuted completion orders of the same per-feed
results, with identical cache state, the results — cache and output —
coincide. When two pooled entries share a publish key, the stable sort
keeps them in completion order, so that hypothesis is necessary. -/
theorem deterministic_unless_key_ties (embed : String → Option String)
    (summarise : Entry → String → String) (now : Int) (lang : String) (c : CacheState)
    (limit : Nat) (f₁ f₂ : List FetchResult) (pool₁ : List Entry)
    (hperm : f₁.Perm f₂) (hok : mergeFetched now f₁ = .ok pool₁)
    (hkeys : (pool₁.map sortKey).Nodup) :
    get_latest_items embed summarise now f₁ lang c limit
      = get_latest_items embed summarise now f₂ lang c limit := by
  obtain ⟨p₂, hok₂, hpp⟩ := mergeFetched_perm now hperm hok
  have hperm' : (List.insertionSort newestFirst pool₁).Perm
      (List.insertionSort newestFirst p₂) :=
    ((List.perm_insertionSort newestFirst pool₁).trans hpp).trans
      (List.perm_insertionSort newestFirst p₂).symm
  have hk₁ : ((List.insertionSort newestFirst pool₁).map sortKey).Nodup :=
    (((List.perm_insertionSort newestFirst pool₁).map sortKey).nodup_iff).mpr hkeys
  have heq : List.insertionSort newestFirst pool₁ = List.insertionSort newestFirst p₂ :=
    sorted_eq_of_perm_of_nodup_keys hperm'
      (List.sorted_insertionSort newestFirst pool₁)
      (List.sorted_insertionSort newestFirst p₂) hk₁
  simp only [get_latest_items, hok, hok₂, heq]

/-- Concrete instance of `deterministic_unless_key_ties`: two feeds with
distinct publish times give the same result in either completion order. -/
theorem deterministic_unless_key_ties_witness :
    get_latest_items (fun _ => none) (fun e _ => e.title) 300 [.ok [okE1], .ok [okE3]]
        "en" {} 7
      = get_latest_items (fun _ => none) (fun e _ => e.title) 300 [.ok [okE3], .ok [okE1]]
        "en" {} 7 :=
  deterministic_unless_key_ties (fun _ => none) (fun e _ => e.title) 300 "en" {} 7
    [.ok [okE1], .ok [okE3]] [.ok [okE3], .ok [okE1]] [okE1, okE3]
    (List.Perm.swap (Except.ok [okE3]) (Except.ok [okE1]) [])
    rfl (by decide)

end CityBot
